import Mathlib

/-!
Verification development for the document rasterization pipeline of
`src/src-tauri/src/document_processor/selector.rs`.

The pipeline (`preparation` in the source) derives a cache directory from the
input document path, counts the document's pages, and then either replays the
cached rendered pages or renders every page afresh with an external
`magick.exe` process, streaming each page image to a subscriber via an
`"image"` event.

Shallow embedding conventions:
* Filesystem state is restricted to the single data directory the run touches:
  a flag for its existence plus a list of `(file name, bytes)` entries.
  Primitive filesystem operations other than "open a missing file"
  (`read_dir`, `create_dir`, `remove_file`) are assumed to succeed, as every
  claim below either conditions on a successful run or is independent of
  those failure modes.
* The external `magick.exe` process is an oracle `Nat → RasterOutcome`
  indexed by the 0-based page: on success it writes the destination file
  (the bytes it produced), on failure it exits with an optional exit code
  and stderr text and writes nothing.
* A Rust panic (`Option::unwrap` on `None`) is modelled by the distinguished
  error `RunError.panicked`: the function crashes rather than returning.
* `usize` values are `Nat`; the `as u16` cast is `% 65536` (= `% 2 ^ 16`).
* Rust `Path` values are `RsPath`: the list of parent components plus an
  optional final normal component (`Path::file_name`). Strings stand for
  `OsStr` contents (`to_string_lossy` is the identity here).
-/

namespace DocPipeline

/-- Raw image bytes (`Vec<u8>` in the source, content abstract). -/
abbrev Bytes := List Nat

/-- `IMAGE_DENSITY` constant, selector.rs line 16. -/
def IMAGE_DENSITY : String := "150"

/-- `IMAGE_RESIZE` constant, selector.rs line 17. -/
def IMAGE_RESIZE : String := "1000x1000"

/-- `IMAGE_FORMAT` constant, selector.rs line 18. -/
def IMAGE_FORMAT : String := "webp"

/-- The decimal digit character for `d` (`'0'` has code 48). -/
def digitChar (d : Nat) : Char := Char.ofNat (48 + d)

/-- Fuelled decimal rendering of a natural number (most significant digit
first), the digit sequence Rust's `format!("{}", n)` prints for a `usize`. -/
def natDigitsAux : Nat → Nat → List Char
  | 0, _ => []
  | fuel + 1, n =>
    if n < 10 then [digitChar n]
    else natDigitsAux fuel (n / 10) ++ [digitChar (n % 10)]

/-- Decimal digit list of `n`; `n + 1` is always enough fuel. -/
def natDigits (n : Nat) : List Char := natDigitsAux (n + 1) n

/-- Decimal string of `n`, as Rust's `Display` for `usize` prints it. -/
def natToStr (n : Nat) : String := String.mk (natDigits n)

/-- Numeric value of a digit character. -/
def digitVal (c : Char) : Nat := c.toNat - 48

/-- Value of a most-significant-first digit list (left inverse used to prove
`natDigits` injective). -/
def digitsVal (ds : List Char) : Nat := ds.foldl (fun a c => 10 * a + digitVal c) 0

/-- Split a file name at its last `'.'`: `some (before, after)` when a dot
exists, `none` otherwise. Mirrors the scan Rust's
`path::split_file_at_dot` performs. -/
def lastDotSplit : List Char → Option (List Char × List Char)
  | [] => none
  | c :: cs =>
    match lastDotSplit cs with
    | some (pre, post) => some (c :: pre, post)
    | none => if c = '.' then some ([], cs) else none

/-- Rust `Path::extension` semantics on a file name: `none` when there is no
dot, when the only dot leads the name (dotfiles), or for `".."`; otherwise
the part after the last dot. -/
def extensionChars (f : List Char) : Option (List Char) :=
  if f = ['.', '.'] then none
  else
    match lastDotSplit f with
    | none => none
    | some ([], _) => none
    | some (_ :: _, post) => some post

/-- Rust `Path::file_stem` semantics on a file name. -/
def fileStemChars (f : List Char) : List Char :=
  if f = ['.', '.'] then f
  else
    match lastDotSplit f with
    | none => f
    | some ([], _) => f
    | some (pre, _) => pre

/-- Rust `PathBuf::set_extension` applied to a file name: the stem, plus
`"." ++ e` when `e` is nonempty. -/
def setExtChars (f : List Char) (e : List Char) : List Char :=
  fileStemChars f ++ (if e = [] then [] else '.' :: e)

/-- `Path::extension` on a file name, as a `String`. -/
def extensionStr (s : String) : Option String := (extensionChars s.data).map String.mk

/-- `Path::file_stem` on a file name, as a `String`. -/
def fileStemStr (s : String) : String := String.mk (fileStemChars s.data)

/-- `PathBuf::set_extension` on a file name, as a `String`. -/
def setExtStr (f e : String) : String := String.mk (setExtChars f.data e.data)

/-- The filter `e.path().extension() == Some(OsStr::new(IMAGE_FORMAT))` used
by `count_webp_files` (line 156) and `remove_existing_webp_files`
(line 163). -/
def isRenderedExt (name : String) : Bool := extensionStr name == some IMAGE_FORMAT

/-- A Rust `Path`: parent components plus the optional final normal component
(what `Path::file_name` returns; `none` for paths like `/` or ones ending
in `..`). -/
structure RsPath where
  dir : List String
  file : Option String
deriving DecidableEq

/-- `PathBuf::with_extension`: no-op when the path has no file name. -/
def withExtension (p : RsPath) (e : String) : RsPath :=
  match p.file with
  | none => p
  | some f => { p with file := some (setExtStr f e) }

/-- `PathBuf::with_file_name`: replaces (or appends) the final component. -/
def withFileName (p : RsPath) (name : String) : RsPath :=
  { p with file := some name }

/-- `Path::join` with a single normal component. -/
def joinPath (p : RsPath) (c : String) : RsPath :=
  { dir := p.dir ++ p.file.toList, file := some c }

/-- Errors a pipeline run can end in. `panicked` models a Rust panic
(`unwrap` on `None`): the code crashes instead of returning a value.
`invalidPath` appears only in the specification's error taxonomy (§7); the
source never constructs it, which is what claim C7 is about. -/
inductive RunError where
  | panicked
  | invalidPath
  | ioError (name : String)
  | externalTool (exitCode : Int) (stderr : String)
deriving DecidableEq

/-- `create_output_paths` (selector.rs lines 81-87): strip the extension,
read the file name (`unwrap`: panics when absent), suffix it with
`"_data"` for the data directory, and derive the (unused) generic output
file name `page.webp` inside it. -/
def create_output_paths (p : RsPath) : Except RunError (RsPath × RsPath) :=
  let pwe := withExtension p ""
  match pwe.file with
  | none => .error .panicked
  | some fileName =>
    let dataDir := withFileName pwe (fileName ++ "_data")
    let outputFileName := withExtension (joinPath dataDir "page") IMAGE_FORMAT
    .ok (dataDir, outputFileName)

/-- `create_magick_args` (selector.rs lines 95-107). -/
def create_magick_args (input output : String) : List String :=
  ["-density", IMAGE_DENSITY, input, "-resize", IMAGE_RESIZE, "-scene", "1", "+adjoin", output]

/-- The page-selection argument `format!("{}[{}]", input, page)` built by
`process_pages` (line 144); `page` is the 0-based loop index. -/
def page_arg (input : String) (page : Nat) : String :=
  input ++ "[" ++ natToStr page ++ "]"

/-- Rendered-page file name `format!("{}.{}", page, IMAGE_FORMAT)` for a
1-based page number (lines 135 and 143). -/
def pageFileName (page : Nat) : String := natToStr page ++ "." ++ IMAGE_FORMAT

/-- The full argument list `process_pages` hands to `run_magick` for 0-based
page index `page` (lines 143-145); `ddPath` is the data directory's display
string, so the output path displays as `ddPath ++ "/" ++ file name`. -/
def magick_invocation (input ddPath : String) (page : Nat) : List String :=
  create_magick_args (page_arg input page) (ddPath ++ "/" ++ pageFileName (page + 1))

/-- Outcome of one external `magick.exe` process: on success the bytes it
wrote to the destination file; on failure its exit code (`none` when killed
without one) and captured stderr. -/
inductive RasterOutcome where
  | ok (bytes : Bytes)
  | fail (exitCode : Option Int) (stderr : String)
deriving DecidableEq

/-- `run_magick` (selector.rs lines 171-193): success is `Ok` (the source
returns `Ok(())`; the bytes the process wrote are carried here to model its
write effect), non-success exit becomes an error carrying
`output.status.code().unwrap_or(1)` and the stderr text (lines 187-191). -/
def run_magick : RasterOutcome → Except RunError Bytes
  | .ok bytes => .ok bytes
  | .fail code stderr => .error (.externalTool (code.getD 1) stderr)

/-- The bytes a successful raster outcome wrote (junk value for failures);
used to state what a loop that finished without error put on disk. -/
def rasterBytes (oracle : Nat → RasterOutcome) (p : Nat) : Bytes :=
  match oracle p with
  | .ok b => b
  | .fail _ _ => []

/-- One `"image"` event payload (`ImageLoaded`, selector.rs lines 35-40).
`page_number` holds the value of the `u16` field. -/
structure ImageLoaded where
  page_number : Nat
  path : String
  data : Bytes
deriving DecidableEq

/-- Data directory contents: `(file name, bytes)` entries in directory
order. -/
abbrev DirEntries := List (String × Bytes)

/-- `File::open` + `read_to_end` on `dir.join(name)`: the first entry with
this name, if any. -/
def lookupFile (dir : DirEntries) (name : String) : Option Bytes :=
  (dir.find? (fun e => e.1 == name)).map Prod.snd

/-- Whether an entry with this name exists. -/
def containsName (dir : DirEntries) (name : String) : Bool :=
  dir.any (fun e => e.1 == name)

/-- Effect of the external process writing the destination file: overwrite
the entry if the name exists, create it otherwise. -/
def writeFile (dir : DirEntries) (name : String) (b : Bytes) : DirEntries :=
  if containsName dir name
  then dir.map (fun e => if e.1 = name then (name, b) else e)
  else dir ++ [(name, b)]

/-- `send_webp_image` (selector.rs lines 195-213): read the file (an I/O
error when it does not exist), then emit the event; `page_number as u16`
is the value modulo `2 ^ 16 = 65536`. -/
def send_webp_image (dir : DirEntries) (ddPath : String) (name : String) (page : Nat) :
    Except RunError ImageLoaded :=
  match lookupFile dir name with
  | none => .error (.ioError name)
  | some bytes => .ok ⟨page % 65536, ddPath ++ "/" ++ name, bytes⟩

/-- The event `send_webp_image` emits for 1-based page `page` when the file
`pageFileName page` holds `b`. -/
def mkEvent (ddPath : String) (page : Nat) (b : Bytes) : ImageLoaded :=
  ⟨page % 65536, ddPath ++ "/" ++ pageFileName page, b⟩

/-- `count_webp_files` (selector.rs lines 152-158): the number of entries
whose extension is the fixed image format. -/
def count_webp_files (dir : DirEntries) : Nat :=
  (dir.filter (fun e => isRenderedExt e.1)).length

/-- `remove_existing_webp_files` (selector.rs lines 160-169): delete every
entry whose extension is the fixed image format; all others stay. -/
def remove_existing_webp_files (dir : DirEntries) : DirEntries :=
  dir.filter (fun e => !isRenderedExt e.1)

/-- Observable trace of a page loop: final directory contents, emitted
events in order, number of `run_magick` invocations, and the error that
aborted the loop, if any. -/
structure StepTrace where
  dir : DirEntries
  events : List ImageLoaded
  rasterCalls : Nat
  error : Option RunError
deriving DecidableEq

/-- Loop body of `process_pages` (selector.rs lines 141-150) over the listed
0-based page indices: render page `p` to `pageFileName (p + 1)` via
`run_magick` (aborting on its error, nothing written), then read the file
back and emit it (aborting on its error). -/
def process_pages_aux (oracle : Nat → RasterOutcome) (ddPath : String) :
    List Nat → DirEntries → StepTrace
  | [], dir => ⟨dir, [], 0, none⟩
  | p :: ps, dir =>
    match run_magick (oracle p) with
    | .error e => ⟨dir, [], 1, some e⟩
    | .ok bytes =>
      let name := pageFileName (p + 1)
      let dir2 := writeFile dir name bytes
      match send_webp_image dir2 ddPath name (p + 1) with
      | .error e => ⟨dir2, [], 1, some e⟩
      | .ok ev =>
        let t := process_pages_aux oracle ddPath ps dir2
        ⟨t.dir, ev :: t.events, t.rasterCalls + 1, t.error⟩

/-- `process_pages` (selector.rs lines 141-150): `for page in 0..page_count`. -/
def process_pages (oracle : Nat → RasterOutcome) (ddPath : String)
    (dir : DirEntries) (page_count : Nat) : StepTrace :=
  process_pages_aux oracle ddPath (List.range page_count) dir

/-- Loop body of `emit_existing_images` over the listed 1-based page
numbers: read and emit `pageFileName p`, aborting on a read failure;
events emitted before the failure stay delivered. -/
def emit_existing_aux (ddPath : String) (dir : DirEntries) :
    List Nat → List ImageLoaded × Option RunError
  | [] => ([], none)
  | p :: ps =>
    match send_webp_image dir ddPath (pageFileName p) p with
    | .error e => ([], some e)
    | .ok ev =>
      let r := emit_existing_aux ddPath dir ps
      (ev :: r.1, r.2)

/-- `emit_existing_images` (selector.rs lines 133-139):
`for page in 1..=page_count`. -/
def emit_existing_images (ddPath : String) (dir : DirEntries) (page_count : Nat) :
    List ImageLoaded × Option RunError :=
  emit_existing_aux ddPath dir ((List.range page_count).map (fun i => i + 1))

/-- The filesystem state a run starts from: whether the data directory
exists, and its entries (meaningful only when it exists; a freshly created
directory is empty). -/
structure FS where
  dataDirExists : Bool
  dataDir : DirEntries
deriving DecidableEq

/-- Result of one pipeline run: final filesystem state, events delivered to
the subscriber in order, `run_magick` invocation count, and the error the
run ended with, if any. -/
structure RunResult where
  fs : FS
  events : List ImageLoaded
  rasterCalls : Nat
  error : Option RunError
deriving DecidableEq

/-- CacheInspector verdict (spec §4.3). -/
inductive CacheStatus where
  | Complete
  | Mismatched (found : Nat)
  | Absent
deriving DecidableEq

/-- The cache classification `preparation` / `handle_existing_data_dir`
perform (selector.rs lines 71-76 and 116-129), reified: the branch on
`data_dir.exists()` and the comparison of `count_webp_files` with the page
count. -/
def inspect_cache (fs : FS) (page_count : Nat) : CacheStatus :=
  if fs.dataDirExists then
    if count_webp_files fs.dataDir = page_count then .Complete
    else .Mismatched (count_webp_files fs.dataDir)
  else .Absent

/-- The cache-validation and rendering core of `preparation` together with
`handle_existing_data_dir` (selector.rs lines 65-79 and 109-131), after
path derivation and page counting: if the data directory exists and the
`webp` count matches the page count, replay the cached pages; if it exists
with a different count, delete the `webp` entries and render every page; if
it is absent, create it (empty) and render every page. -/
def preparation_run (oracle : Nat → RasterOutcome) (ddPath : String)
    (page_count : Nat) (fs : FS) : RunResult :=
  if fs.dataDirExists then
    if count_webp_files fs.dataDir = page_count then
      let r := emit_existing_images ddPath fs.dataDir page_count
      ⟨⟨true, fs.dataDir⟩, r.1, 0, r.2⟩
    else
      let t := process_pages oracle ddPath (remove_existing_webp_files fs.dataDir) page_count
      ⟨⟨true, t.dir⟩, t.events, t.rasterCalls, t.error⟩
  else
    let t := process_pages oracle ddPath [] page_count
    ⟨⟨true, t.dir⟩, t.events, t.rasterCalls, t.error⟩

/-! Helper lemmas: decimal rendering. -/

theorem natDigitsAux_congr : ∀ n f₁ f₂, n < f₁ → n < f₂ →
    natDigitsAux f₁ n = natDigitsAux f₂ n := by
  intro n
  induction n using Nat.strong_induction_on with
  | _ n ih =>
    intro f₁ f₂ h₁ h₂
    cases f₁ with
    | zero => omega
    | succ a =>
      cases f₂ with
      | zero => omega
      | succ b =>
        simp only [natDigitsAux]
        by_cases h10 : n < 10
        · simp [h10]
        · simp only [h10, if_false]
          rw [ih (n / 10) (Nat.div_lt_self (by omega) (by omega)) a b (by omega) (by omega)]

theorem natDigits_def (n : Nat) :
    natDigits n = if n < 10 then [digitChar n]
                  else natDigits (n / 10) ++ [digitChar (n % 10)] := by
  show natDigitsAux (n + 1) n = _
  simp only [natDigitsAux]
  by_cases h10 : n < 10
  · simp [h10]
  · simp only [h10, if_false]
    rw [natDigitsAux_congr (n / 10) n (n / 10 + 1)
      (Nat.div_lt_self (by omega) (by omega)) (by omega)]
    rfl

theorem digitVal_digitChar : ∀ d, d < 10 → digitVal (digitChar d) = d := by decide

theorem digitChar_ne_dot : ∀ d, d < 10 → digitChar d ≠ '.' := by decide

theorem digitsVal_append_digit (ds : List Char) (c : Char) :
    digitsVal (ds ++ [c]) = 10 * digitsVal ds + digitVal c := by
  simp [digitsVal, List.foldl_append]

theorem digitsVal_natDigits : ∀ n, digitsVal (natDigits n) = n := by
  intro n
  induction n using Nat.strong_induction_on with
  | _ n ih =>
    rw [natDigits_def]
    by_cases h10 : n < 10
    · simp only [h10, if_true]
      show 10 * 0 + digitVal (digitChar n) = n
      rw [digitVal_digitChar n h10]
      omega
    · simp only [h10, if_false]
      rw [digitsVal_append_digit, ih (n / 10) (Nat.div_lt_self (by omega) (by omega)),
        digitVal_digitChar (n % 10) (Nat.mod_lt n (by omega))]
      omega

theorem natDigits_injective {a b : Nat} (h : natDigits a = natDigits b) : a = b := by
  have ha := digitsVal_natDigits a
  rw [h, digitsVal_natDigits] at ha
  exact ha.symm

theorem natDigits_ne_nil (n : Nat) : natDigits n ≠ [] := by
  rw [natDigits_def]
  by_cases h10 : n < 10 <;> simp [h10]

theorem dot_not_mem_natDigits : ∀ n, '.' ∉ natDigits n := by
  intro n
  induction n using Nat.strong_induction_on with
  | _ n ih =>
    rw [natDigits_def]
    by_cases h10 : n < 10
    · simp only [h10, if_true, List.mem_singleton]
      exact fun h => digitChar_ne_dot n h10 h.symm
    · simp only [h10, if_false, List.mem_append, List.mem_singleton]
      push_neg
      refine ⟨ih (n / 10) (Nat.div_lt_self (by omega) (by omega)), fun h => ?_⟩
      exact digitChar_ne_dot (n % 10) (Nat.mod_lt n (by omega)) h.symm

/-! Helper lemmas: file-name extensions. -/

theorem lastDotSplit_eq_none {cs : List Char} : lastDotSplit cs = none ↔ '.' ∉ cs := by
  induction cs with
  | nil => simp [lastDotSplit]
  | cons c cs ih =>
    simp only [lastDotSplit]
    cases h : lastDotSplit cs with
    | some pr =>
      obtain ⟨pre, post⟩ := pr
      have hmem : '.' ∈ cs := by
        by_contra hn
        rw [ih.mpr hn] at h
        cases h
      simp [List.mem_cons, hmem]
    | none =>
      have hno : '.' ∉ cs := ih.mp h
      by_cases hc : c = '.'
      · simp [hc]
      · simp only [if_neg hc, List.mem_cons]
        constructor
        · intro _ hor
          rcases hor with h1 | h2
          · exact hc h1.symm
          · exact hno h2
        · intro _
          trivial

theorem lastDotSplit_append_dot (pre post : List Char) (hpost : '.' ∉ post) :
    lastDotSplit (pre ++ '.' :: post) = some (pre, post) := by
  induction pre with
  | nil =>
    simp only [List.nil_append, lastDotSplit, lastDotSplit_eq_none.mpr hpost]
    simp
  | cons a pre ih =>
    simp only [List.cons_append, lastDotSplit, List.append_eq, ih]

theorem extensionChars_append (pre post : List Char) (h1 : pre ≠ [])
    (h2 : '.' ∉ pre) (h3 : '.' ∉ post) :
    extensionChars (pre ++ '.' :: post) = some post := by
  have hdd : pre ++ '.' :: post ≠ ['.', '.'] := by
    intro h
    cases pre with
    | nil => exact h1 rfl
    | cons a pre2 =>
      rw [List.cons_append] at h
      have ha : a = '.' := (List.cons.injEq _ _ _ _ ▸ h).1
      exact h2 (by simp [ha])
  rw [extensionChars, if_neg hdd, lastDotSplit_append_dot pre post h3]
  cases pre with
  | nil => exact absurd rfl h1
  | cons a pre2 => rfl

theorem string_data_append (s t : String) : (s ++ t).data = s.data ++ t.data := by
  cases s
  cases t
  rfl

theorem string_eq_of_data {s t : String} (h : s.data = t.data) : s = t := by
  cases s
  cases t
  simp only at h
  rw [h]

theorem pageFileName_data (k : Nat) :
    (pageFileName k).data = natDigits k ++ '.' :: ['w', 'e', 'b', 'p'] := by
  show ((natToStr k ++ ".") ++ IMAGE_FORMAT).data = _
  rw [string_data_append, string_data_append]
  show (natDigits k ++ ['.']) ++ ['w', 'e', 'b', 'p'] = _
  simp

theorem extensionStr_pageFileName (k : Nat) :
    extensionStr (pageFileName k) = some IMAGE_FORMAT := by
  rw [extensionStr, pageFileName_data,
    extensionChars_append _ _ (natDigits_ne_nil k) (dot_not_mem_natDigits k) (by decide)]
  rfl

theorem isRenderedExt_pageFileName (k : Nat) : isRenderedExt (pageFileName k) = true := by
  rw [isRenderedExt, extensionStr_pageFileName]
  rfl

theorem pageFileName_injective : Function.Injective pageFileName := by
  intro a b h
  have hd := congrArg String.data h
  rw [pageFileName_data, pageFileName_data] at hd
  exact natDigits_injective (List.append_cancel_right hd)

theorem ne_pageFileName_of_not_rendered {name : String}
    (h : isRenderedExt name = false) (k : Nat) : name ≠ pageFileName k := by
  intro he
  rw [he, isRenderedExt_pageFileName] at h
  cases h

/-! Helper lemmas: directory operations. -/

theorem lookupFile_cons (e : String × Bytes) (dir : DirEntries) (name : String) :
    lookupFile (e :: dir) name = if e.1 = name then some e.2 else lookupFile dir name := by
  simp only [lookupFile, List.find?]
  by_cases h : e.1 = name
  · rw [if_pos h, beq_iff_eq.mpr h]
    rfl
  · rw [if_neg h, beq_eq_false_iff_ne.mpr h]

theorem containsName_eq_false {dir : DirEntries} {name : String} :
    containsName dir name = false ↔ ∀ e ∈ dir, e.1 ≠ name := by
  simp [containsName, List.any_eq_false]

theorem lookupFile_append_right (d1 d2 : DirEntries) (name : String)
    (h : ∀ e ∈ d1, e.1 ≠ name) :
    lookupFile (d1 ++ d2) name = lookupFile d2 name := by
  induction d1 with
  | nil => simp
  | cons e d1 ih =>
    rw [List.cons_append, lookupFile_cons, if_neg (h e (by simp)),
      ih (fun x hx => h x (by simp [hx]))]

theorem lookupFile_map_mem (bs : Nat → Bytes) (ps : List Nat) (p : Nat)
    (hnd : ps.Nodup) (hp : p ∈ ps) :
    lookupFile (ps.map (fun q => (pageFileName (q + 1), bs q))) (pageFileName (p + 1))
      = some (bs p) := by
  induction ps with
  | nil => cases hp
  | cons q ps ih =>
    rw [List.map_cons, lookupFile_cons]
    rcases List.mem_cons.mp hp with hqp | hmem
    · subst hqp
      simp
    · rw [if_neg ?_]
      · exact ih (List.Nodup.of_cons hnd) hmem
      · intro hc
        have : q = p := by
          have := pageFileName_injective hc
          omega
        subst this
        exact (List.nodup_cons.mp hnd).1 hmem

theorem writeFile_of_not_contains {dir : DirEntries} {name : String} {b : Bytes}
    (h : containsName dir name = false) :
    writeFile dir name b = dir ++ [(name, b)] := by
  rw [writeFile, if_neg]
  simp [h]

theorem containsName_append (d1 d2 : DirEntries) (name : String) :
    containsName (d1 ++ d2) name = (containsName d1 name || containsName d2 name) := by
  simp [containsName, List.any_append]

theorem mem_writeFile_of_ne {dir : DirEntries} {name : String} {b : Bytes}
    {e : String × Bytes} (hne : e.1 ≠ name) (hmem : e ∈ dir) :
    e ∈ writeFile dir name b := by
  rw [writeFile]
  by_cases h : containsName dir name
  · simp only [h, if_true]
    refine List.mem_map.mpr ⟨e, hmem, ?_⟩
    rw [if_neg hne]
  · simp only [h, if_false]
    exact List.mem_append_left _ hmem

/-! Helper lemmas: event emission. -/

theorem send_ok_of_lookup {dir : DirEntries} {ddPath name : String} {page : Nat} {b : Bytes}
    (h : lookupFile dir name = some b) :
    send_webp_image dir ddPath name page
      = .ok ⟨page % 65536, ddPath ++ "/" ++ name, b⟩ := by
  rw [send_webp_image, h]

theorem send_err_of_lookup_none {dir : DirEntries} {ddPath name : String} {page : Nat}
    (h : lookupFile dir name = none) :
    send_webp_image dir ddPath name page = .error (.ioError name) := by
  rw [send_webp_image, h]

theorem send_pageFileName_ok {dir : DirEntries} {ddPath : String} {page : Nat} {b : Bytes}
    (h : lookupFile dir (pageFileName page) = some b) :
    send_webp_image dir ddPath (pageFileName page) page = .ok (mkEvent ddPath page b) := by
  rw [send_webp_image, h]
  rfl

theorem send_ok_page_number {dir : DirEntries} {ddPath name : String} {page : Nat}
    {ev : ImageLoaded} (h : send_webp_image dir ddPath name page = .ok ev) :
    ev.page_number = page % 65536 := by
  rw [send_webp_image] at h
  cases hl : lookupFile dir name with
  | none => rw [hl] at h; cases h
  | some b => rw [hl] at h; cases h; rfl

theorem emit_aux_ok (ddPath : String) (dir : DirEntries) :
    ∀ ps : List Nat, (∀ p ∈ ps, lookupFile dir (pageFileName p) ≠ none) →
    emit_existing_aux ddPath dir ps =
      (ps.map (fun p => mkEvent ddPath p ((lookupFile dir (pageFileName p)).getD [])), none) := by
  intro ps
  induction ps with
  | nil => intro _; rfl
  | cons p ps ih =>
    intro h
    cases hl : lookupFile dir (pageFileName p) with
    | none => exact absurd hl (h p (by simp))
    | some b =>
      simp only [emit_existing_aux, send_pageFileName_ok hl,
        ih (fun q hq => h q (by simp [hq])), List.map_cons, hl]
      rfl

theorem emit_aux_err_none (ddPath : String) (dir : DirEntries) :
    ∀ ps : List Nat, (emit_existing_aux ddPath dir ps).2 = none →
    ∀ p ∈ ps, lookupFile dir (pageFileName p) ≠ none := by
  intro ps
  induction ps with
  | nil => intro _ p hp; cases hp
  | cons p ps ih =>
    intro h q hq
    cases hl : lookupFile dir (pageFileName p) with
    | none =>
      rw [show emit_existing_aux ddPath dir (p :: ps)
          = ([], some (.ioError (pageFileName p))) from ?_] at h
      · cases h
      · simp only [emit_existing_aux, send_err_of_lookup_none hl]
    | some b =>
      simp only [emit_existing_aux, send_pageFileName_ok hl] at h
      rcases List.mem_cons.mp hq with hqp | hmem
      · subst hqp
        rw [hl]
        simp
      · exact ih h q hmem

theorem emit_aux_events_pn (ddPath : String) (dir : DirEntries) (ps : List Nat)
    (h : (emit_existing_aux ddPath dir ps).2 = none) :
    (emit_existing_aux ddPath dir ps).1.map ImageLoaded.page_number
      = ps.map (fun p => p % 65536) := by
  rw [emit_aux_ok ddPath dir ps (emit_aux_err_none ddPath dir ps h)]
  simp [mkEvent]

/-! Helper lemmas: the rendering loop. -/

theorem process_aux_ok (oracle : Nat → RasterOutcome) (bs : Nat → Bytes) (ddPath : String) :
    ∀ (ps : List Nat) (dir : DirEntries),
    (∀ p ∈ ps, oracle p = .ok (bs p)) →
    (∀ p ∈ ps, containsName dir (pageFileName (p + 1)) = false) →
    ps.Nodup →
    process_pages_aux oracle ddPath ps dir =
      ⟨dir ++ ps.map (fun p => (pageFileName (p + 1), bs p)),
       ps.map (fun p => mkEvent ddPath (p + 1) (bs p)), ps.length, none⟩ := by
  intro ps
  induction ps with
  | nil => intro dir _ _ _; simp [process_pages_aux]
  | cons p ps ih =>
    intro dir hok hfresh hnd
    have ho := hok p (by simp)
    have hw : writeFile dir (pageFileName (p + 1)) (bs p)
        = dir ++ [(pageFileName (p + 1), bs p)] :=
      writeFile_of_not_contains (hfresh p (by simp))
    have hnames : ∀ e ∈ dir, e.1 ≠ pageFileName (p + 1) :=
      containsName_eq_false.mp (hfresh p (by simp))
    have hlook : lookupFile (dir ++ [(pageFileName (p + 1), bs p)]) (pageFileName (p + 1))
        = some (bs p) := by
      rw [lookupFile_append_right _ _ _ hnames, lookupFile_cons, if_pos rfl]
    have hrec := ih (dir ++ [(pageFileName (p + 1), bs p)])
      (fun q hq => hok q (by simp [hq]))
      (fun q hq => by
        rw [containsName_append]
        have h1 : containsName dir (pageFileName (q + 1)) = false :=
          hfresh q (by simp [hq])
        have h2 : containsName [(pageFileName (p + 1), bs p)] (pageFileName (q + 1)) = false := by
          rw [containsName_eq_false]
          intro e he
          rw [List.mem_singleton.mp he]
          intro hc
          have : p = q := by
            have := pageFileName_injective hc
            omega
          subst this
          exact (List.nodup_cons.mp hnd).1 hq
        rw [h1, h2]
        rfl)
      (List.Nodup.of_cons hnd)
    simp only [process_pages_aux, ho, run_magick, hw, send_pageFileName_ok hlook, hrec,
      List.map_cons, List.length_cons]
    simp [List.append_assoc]

theorem process_aux_err_none (oracle : Nat → RasterOutcome) (ddPath : String) :
    ∀ (ps : List Nat) (dir : DirEntries),
    (process_pages_aux oracle ddPath ps dir).error = none →
    ∀ p ∈ ps, oracle p = .ok (rasterBytes oracle p) := by
  intro ps
  induction ps with
  | nil => intro _ _ p hp; cases hp
  | cons p ps ih =>
    intro dir h q hq
    cases ho : oracle p with
    | fail c st =>
      simp only [process_pages_aux, ho, run_magick] at h
      cases h
    | ok b =>
      simp only [process_pages_aux, ho, run_magick] at h
      rcases hsend : send_webp_image (writeFile dir (pageFileName (p + 1)) b) ddPath
          (pageFileName (p + 1)) (p + 1) with e | ev
      · rw [hsend] at h
        cases h
      · rw [hsend] at h
        rcases List.mem_cons.mp hq with hqp | hmem
        · subst hqp
          rw [ho, rasterBytes, ho]
        · exact ih _ h q hmem

theorem process_aux_events_pn (oracle : Nat → RasterOutcome) (ddPath : String) :
    ∀ (ps : List Nat) (dir : DirEntries),
    (process_pages_aux oracle ddPath ps dir).error = none →
    (process_pages_aux oracle ddPath ps dir).events.map ImageLoaded.page_number
      = ps.map (fun p => (p + 1) % 65536) := by
  intro ps
  induction ps with
  | nil => intro _ _; rfl
  | cons p ps ih =>
    intro dir h
    cases ho : oracle p with
    | fail c st =>
      simp only [process_pages_aux, ho, run_magick] at h
      cases h
    | ok b =>
      rcases hsend : send_webp_image (writeFile dir (pageFileName (p + 1)) b) ddPath
          (pageFileName (p + 1)) (p + 1) with e | ev
      · simp only [process_pages_aux, ho, run_magick, hsend] at h
        cases h
      · simp only [process_pages_aux, ho, run_magick, hsend] at h ⊢
        simp only [List.map_cons, send_ok_page_number hsend, ih _ h]

theorem process_aux_preserves (oracle : Nat → RasterOutcome) (ddPath : String)
    (e : String × Bytes) (he : isRenderedExt e.1 = false) :
    ∀ (ps : List Nat) (dir : DirEntries), e ∈ dir →
    e ∈ (process_pages_aux oracle ddPath ps dir).dir := by
  intro ps
  induction ps with
  | nil => intro dir hmem; exact hmem
  | cons p ps ih =>
    intro dir hmem
    cases ho : oracle p with
    | fail c st => simp only [process_pages_aux, ho, run_magick]; exact hmem
    | ok b =>
      have hmem2 : e ∈ writeFile dir (pageFileName (p + 1)) b :=
        mem_writeFile_of_ne (ne_pageFileName_of_not_rendered he (p + 1)) hmem
      simp only [process_pages_aux, ho, run_magick]
      rcases hsend : send_webp_image (writeFile dir (pageFileName (p + 1)) b) ddPath
          (pageFileName (p + 1)) (p + 1) with er | ev
      · exact hmem2
      · exact ih _ hmem2

/-! Helper lemmas: the pipeline branches. -/

theorem preparation_run_complete (oracle : Nat → RasterOutcome) (ddPath : String)
    (pc : Nat) (fs : FS) (hex : fs.dataDirExists = true)
    (hc : count_webp_files fs.dataDir = pc) :
    preparation_run oracle ddPath pc fs =
      ⟨⟨true, fs.dataDir⟩, (emit_existing_images ddPath fs.dataDir pc).1, 0,
       (emit_existing_images ddPath fs.dataDir pc).2⟩ := by
  rw [preparation_run, if_pos hex, if_pos hc]

theorem preparation_run_mismatch (oracle : Nat → RasterOutcome) (ddPath : String)
    (pc : Nat) (fs : FS) (hex : fs.dataDirExists = true)
    (hc : count_webp_files fs.dataDir ≠ pc) :
    preparation_run oracle ddPath pc fs =
      ⟨⟨true, (process_pages oracle ddPath (remove_existing_webp_files fs.dataDir) pc).dir⟩,
       (process_pages oracle ddPath (remove_existing_webp_files fs.dataDir) pc).events,
       (process_pages oracle ddPath (remove_existing_webp_files fs.dataDir) pc).rasterCalls,
       (process_pages oracle ddPath (remove_existing_webp_files fs.dataDir) pc).error⟩ := by
  rw [preparation_run, if_pos hex, if_neg hc]

theorem preparation_run_absent (oracle : Nat → RasterOutcome) (ddPath : String)
    (pc : Nat) (fs : FS) (hex : fs.dataDirExists = false) :
    preparation_run oracle ddPath pc fs =
      ⟨⟨true, (process_pages oracle ddPath [] pc).dir⟩,
       (process_pages oracle ddPath [] pc).events,
       (process_pages oracle ddPath [] pc).rasterCalls,
       (process_pages oracle ddPath [] pc).error⟩ := by
  rw [preparation_run, if_neg]
  simp [hex]

theorem remove_existing_not_rendered (dir : DirEntries) :
    ∀ e ∈ remove_existing_webp_files dir, isRenderedExt e.1 = false := by
  intro e he
  have := List.of_mem_filter he
  simpa using this

theorem count_webp_append_rendered (dir : DirEntries)
    (hbase : ∀ e ∈ dir, isRenderedExt e.1 = false)
    (ps : List Nat) (bs : Nat → Bytes) :
    count_webp_files (dir ++ ps.map (fun p => (pageFileName (p + 1), bs p))) = ps.length := by
  rw [count_webp_files, List.filter_append]
  rw [show (dir.filter fun e => isRenderedExt e.1) = [] from
    List.filter_eq_nil_iff.mpr (by intro e he; simp [hbase e he])]
  rw [List.nil_append, List.filter_eq_self.mpr ?_, List.length_map]
  intro e he
  rcases List.mem_map.mp he with ⟨p, hp, rfl⟩
  simp [isRenderedExt_pageFileName]

theorem lookup_rendered (dir : DirEntries)
    (hbase : ∀ e ∈ dir, isRenderedExt e.1 = false)
    (ps : List Nat) (bs : Nat → Bytes) (hnd : ps.Nodup) (p : Nat) (hp : p ∈ ps) :
    lookupFile (dir ++ ps.map (fun q => (pageFileName (q + 1), bs q))) (pageFileName (p + 1))
      = some (bs p) := by
  rw [lookupFile_append_right _ _ _
    (fun e he => ne_pageFileName_of_not_rendered (hbase e he) _)]
  exact lookupFile_map_mem bs ps p hnd hp

theorem process_pages_ok (oracle : Nat → RasterOutcome) (bs : Nat → Bytes) (ddPath : String)
    (pc : Nat) (dir : DirEntries)
    (hok : ∀ p, p < pc → oracle p = .ok (bs p))
    (hbase : ∀ e ∈ dir, isRenderedExt e.1 = false) :
    process_pages oracle ddPath dir pc =
      ⟨dir ++ (List.range pc).map (fun p => (pageFileName (p + 1), bs p)),
       (List.range pc).map (fun p => mkEvent ddPath (p + 1) (bs p)), pc, none⟩ := by
  rw [process_pages, process_aux_ok oracle bs ddPath (List.range pc) dir
    (fun p hp => hok p (List.mem_range.mp hp))
    (fun p hp => containsName_eq_false.mpr
      (fun e he => ne_pageFileName_of_not_rendered (hbase e he) _))
    (List.nodup_range pc), List.length_range]

theorem process_pages_success_ok (oracle : Nat → RasterOutcome) (ddPath : String)
    (pc : Nat) (dir : DirEntries)
    (h : (process_pages oracle ddPath dir pc).error = none) :
    ∀ p, p < pc → oracle p = .ok (rasterBytes oracle p) :=
  fun p hp =>
    process_aux_err_none oracle ddPath (List.range pc) dir h p (List.mem_range.mpr hp)

theorem run_success_state (oracle : Nat → RasterOutcome) (ddPath : String) (pc : Nat) (fs : FS)
    (h : (preparation_run oracle ddPath pc fs).error = none) :
    (preparation_run oracle ddPath pc fs).fs.dataDirExists = true ∧
    count_webp_files (preparation_run oracle ddPath pc fs).fs.dataDir = pc ∧
    ∀ p, p < pc →
      lookupFile (preparation_run oracle ddPath pc fs).fs.dataDir (pageFileName (p + 1))
        ≠ none := by
  by_cases hex : fs.dataDirExists = true
  · by_cases hc : count_webp_files fs.dataDir = pc
    · rw [preparation_run_complete oracle ddPath pc fs hex hc] at h ⊢
      refine ⟨rfl, hc, fun p hp => ?_⟩
      exact emit_aux_err_none ddPath fs.dataDir _ h (p + 1)
        (List.mem_map.mpr ⟨p, List.mem_range.mpr hp, rfl⟩)
    · rw [preparation_run_mismatch oracle ddPath pc fs hex hc] at h ⊢
      have hbase := remove_existing_not_rendered fs.dataDir
      have hok := process_pages_success_ok oracle ddPath pc _ h
      rw [process_pages_ok oracle (rasterBytes oracle) ddPath pc _ hok hbase]
      refine ⟨rfl, ?_, fun p hp => ?_⟩
      · rw [show (⟨⟨true, _⟩, _, _, _⟩ : RunResult).fs.dataDir = _ from rfl,
          count_webp_append_rendered _ hbase _ _, List.length_range]
      · rw [show (⟨⟨true, _⟩, _, _, _⟩ : RunResult).fs.dataDir = _ from rfl,
          lookup_rendered _ hbase _ _ (List.nodup_range pc) p (List.mem_range.mpr hp)]
        simp
  · have hex2 : fs.dataDirExists = false := by
      cases hb : fs.dataDirExists
      · rfl
      · exact absurd hb hex
    rw [preparation_run_absent oracle ddPath pc fs hex2] at h ⊢
    have hbase : ∀ e ∈ ([] : DirEntries), isRenderedExt e.1 = false := by
      intro e he
      cases he
    have hok := process_pages_success_ok oracle ddPath pc _ h
    rw [process_pages_ok oracle (rasterBytes oracle) ddPath pc _ hok hbase]
    refine ⟨rfl, ?_, fun p hp => ?_⟩
    · rw [show (⟨⟨true, _⟩, _, _, _⟩ : RunResult).fs.dataDir = _ from rfl,
        count_webp_append_rendered _ hbase _ _, List.length_range]
    · rw [show (⟨⟨true, _⟩, _, _, _⟩ : RunResult).fs.dataDir = _ from rfl,
        lookup_rendered _ hbase _ _ (List.nodup_range pc) p (List.mem_range.mpr hp)]
      simp

theorem process_aux_ok_prefix (oracle : Nat → RasterOutcome) (bs : Nat → Bytes)
    (ddPath : String) :
    ∀ (ps : List Nat) (qs : List Nat) (dir : DirEntries),
    (∀ p ∈ ps, oracle p = .ok (bs p)) →
    (∀ p ∈ ps, containsName dir (pageFileName (p + 1)) = false) →
    ps.Nodup →
    process_pages_aux oracle ddPath (ps ++ qs) dir =
      ⟨(process_pages_aux oracle ddPath qs
          (dir ++ ps.map (fun p => (pageFileName (p + 1), bs p)))).dir,
       ps.map (fun p => mkEvent ddPath (p + 1) (bs p))
         ++ (process_pages_aux oracle ddPath qs
              (dir ++ ps.map (fun p => (pageFileName (p + 1), bs p)))).events,
       ps.length + (process_pages_aux oracle ddPath qs
              (dir ++ ps.map (fun p => (pageFileName (p + 1), bs p)))).rasterCalls,
       (process_pages_aux oracle ddPath qs
          (dir ++ ps.map (fun p => (pageFileName (p + 1), bs p)))).error⟩ := by
  intro ps
  induction ps with
  | nil => intro qs dir _ _ _; simp
  | cons p ps ih =>
    intro qs dir hok hfresh hnd
    have ho := hok p (by simp)
    have hw : writeFile dir (pageFileName (p + 1)) (bs p)
        = dir ++ [(pageFileName (p + 1), bs p)] :=
      writeFile_of_not_contains (hfresh p (by simp))
    have hnames : ∀ e ∈ dir, e.1 ≠ pageFileName (p + 1) :=
      containsName_eq_false.mp (hfresh p (by simp))
    have hlook : lookupFile (dir ++ [(pageFileName (p + 1), bs p)]) (pageFileName (p + 1))
        = some (bs p) := by
      rw [lookupFile_append_right _ _ _ hnames, lookupFile_cons, if_pos rfl]
    have hrec := ih qs (dir ++ [(pageFileName (p + 1), bs p)])
      (fun q hq => hok q (by simp [hq]))
      (fun q hq => by
        rw [containsName_append]
        have h1 : containsName dir (pageFileName (q + 1)) = false :=
          hfresh q (by simp [hq])
        have h2 : containsName [(pageFileName (p + 1), bs p)] (pageFileName (q + 1))
            = false := by
          rw [containsName_eq_false]
          intro e he
          rw [List.mem_singleton.mp he]
          intro hcn
          have : p = q := by
            have := pageFileName_injective hcn
            omega
          subst this
          exact (List.nodup_cons.mp hnd).1 hq
        rw [h1, h2]
        rfl)
      (List.Nodup.of_cons hnd)
    have hdirs : dir ++ [(pageFileName (p + 1), bs p)]
        ++ List.map (fun q => (pageFileName (q + 1), bs q)) ps
        = dir ++ (pageFileName (p + 1), bs p)
          :: List.map (fun q => (pageFileName (q + 1), bs q)) ps := by
      rw [List.append_assoc]
      rfl
    simp only [List.cons_append, process_pages_aux, ho, run_magick, hw,
      send_pageFileName_ok hlook, List.append_eq, hrec, hdirs, List.map_cons,
      List.length_cons]
    simp only [StepTrace.mk.injEq]
    refine ⟨trivial, by simp, by omega, trivial⟩

/-! Intermediate facts used by the path-derivation claims. -/

theorem setExtStr_empty (f : String) : setExtStr f "" = fileStemStr f := by
  rw [setExtStr, fileStemStr]
  simp [setExtChars]

theorem setExt_page : setExtStr "page" IMAGE_FORMAT = "page.webp" := by decide

/-! The claims. -/

/-- C6: for every input path with a file-name component, cache-path derivation
strips the document's extension, appends the fixed suffix `"_data"` to the
file name, and keeps the result in the same parent directory (the generic
output name derived next to it is `page.webp` inside that directory); being a
pure function, calling it twice with the same input yields the same output
(last conjunct). -/
theorem C6_path_derivation (p : RsPath) (f : String) (h : p.file = some f) :
    create_output_paths p =
      .ok (⟨p.dir, some (fileStemStr f ++ "_data")⟩,
           ⟨p.dir ++ [fileStemStr f ++ "_data"], some "page.webp"⟩)
    ∧ create_output_paths p = create_output_paths p := by
  refine ⟨?_, rfl⟩
  have h1 : withExtension p "" = ⟨p.dir, some (fileStemStr f)⟩ := by
    simp only [withExtension, h, setExtStr_empty]
  simp only [create_output_paths, h1, withFileName, joinPath, Option.toList_some]
  simp [withExtension, setExt_page]

/-- C6 witness at the spec's example path `/docs/report.pdf`. -/
theorem C6_path_derivation_witness :
    create_output_paths ⟨["docs"], some "report.pdf"⟩ =
      .ok (⟨["docs"], some "report_data"⟩,
           ⟨["docs", "report_data"], some "page.webp"⟩) := by
  have h := (C6_path_derivation ⟨["docs"], some "report.pdf"⟩ "report.pdf" rfl).1
  rw [h]
  have hstem : fileStemStr "report.pdf" = "report" := by decide
  rw [hstem]
  rfl

/-- C7: on an input path with no file-name component (such as the filesystem
root `/`), `create_output_paths` panics — `file_name().unwrap()` on `None`,
modelled by `RunError.panicked` — rather than returning the `InvalidPath`
error the specification promises; `invalidPath` is never produced. -/
theorem C7_no_filename_panics :
    create_output_paths ⟨[], none⟩ = .error .panicked
    ∧ RunError.panicked ≠ RunError.invalidPath := by
  exact ⟨rfl, by decide⟩

/-- C8 as stated is false: the invocation built for the first page (0-based
index 0, i.e. 1-based page 1) selects `doc.pdf[0]` — the bracket encodes the
0-based index, not the 1-based page number, which would read `doc.pdf[1]`. -/
theorem C8_offset_counterexample :
    (magick_invocation "doc.pdf" "doc_data" 0)[2]? = some "doc.pdf[0]"
    ∧ "doc.pdf[0]" ≠ "doc.pdf[1]" := by
  exact ⟨by decide, by decide⟩

/-- C8 amended: for every 0-based page index, the rasterizer invocation
selects exactly one page with the offset encoded 0-based in brackets, at
density 150, resized to fit 1000x1000, with a single output file (`+adjoin`)
at `<data dir>/<index+1>.webp`, whose name carries the fixed webp
extension. -/
theorem C8_invocation_amended (input ddPath : String) (page : Nat) :
    magick_invocation input ddPath page =
      ["-density", "150", input ++ "[" ++ natToStr page ++ "]",
       "-resize", "1000x1000", "-scene", "1", "+adjoin",
       ddPath ++ "/" ++ (natToStr (page + 1) ++ "." ++ "webp")]
    ∧ extensionStr (natToStr (page + 1) ++ "." ++ "webp") = some "webp" := by
  exact ⟨rfl, extensionStr_pageFileName (page + 1)⟩

/-- C2: cache inspection classifies Absent exactly when the data directory
does not exist; otherwise it counts the entries carrying the fixed
rendered-page extension and classifies Complete exactly when that count
equals the page count and Mismatched (carrying the count) otherwise;
and on Complete the run replays the cache: the directory is left untouched
and the rasterizer is never invoked. -/
theorem C2_cache_classification (oracle : Nat → RasterOutcome) (ddPath : String)
    (fs : FS) (pc : Nat) :
    (inspect_cache fs pc = .Absent ↔ fs.dataDirExists = false)
    ∧ (fs.dataDirExists = true →
        ((inspect_cache fs pc = .Complete ↔ count_webp_files fs.dataDir = pc)
         ∧ (count_webp_files fs.dataDir ≠ pc →
             inspect_cache fs pc = .Mismatched (count_webp_files fs.dataDir))))
    ∧ (inspect_cache fs pc = .Complete →
        (preparation_run oracle ddPath pc fs).fs.dataDir = fs.dataDir
        ∧ (preparation_run oracle ddPath pc fs).rasterCalls = 0) := by
  by_cases hex : fs.dataDirExists = true
  · by_cases hc : count_webp_files fs.dataDir = pc
    · have hi : inspect_cache fs pc = .Complete := by
        rw [inspect_cache, if_pos hex, if_pos hc]
      refine ⟨?_, fun _ => ⟨?_, fun hne => absurd hc hne⟩, fun _ => ?_⟩
      · rw [hi]
        constructor
        · intro h
          cases h
        · intro h
          rw [hex] at h
          cases h
      · rw [hi]
        exact ⟨fun _ => hc, fun _ => rfl⟩
      · rw [preparation_run_complete oracle ddPath pc fs hex hc]
        exact ⟨rfl, rfl⟩
    · have hi : inspect_cache fs pc = .Mismatched (count_webp_files fs.dataDir) := by
        rw [inspect_cache, if_pos hex, if_neg hc]
      refine ⟨?_, fun _ => ⟨?_, fun _ => hi⟩, fun hcomp => ?_⟩
      · rw [hi]
        constructor
        · intro h
          cases h
        · intro h
          rw [hex] at h
          cases h
      · rw [hi]
        constructor
        · intro h
          cases h
        · intro h
          exact absurd h hc
      · rw [hi] at hcomp
        cases hcomp
  · have hex2 : fs.dataDirExists = false := by
      cases hb : fs.dataDirExists
      · rfl
      · exact absurd hb hex
    have hi : inspect_cache fs pc = .Absent := by
      rw [inspect_cache, if_neg]
      rw [hex2]
      simp
    refine ⟨?_, fun htrue => absurd htrue hex, fun hcomp => ?_⟩
    · rw [hi]
      exact ⟨fun _ => hex2, fun _ => rfl⟩
    · rw [hi] at hcomp
      cases hcomp

/-- C2 witness: a directory holding exactly the one rendered page of a
1-page document classifies Complete, and the run makes no rasterizer call. -/
theorem C2_cache_classification_witness :
    inspect_cache ⟨true, [("1.webp", [0])]⟩ 1 = CacheStatus.Complete
    ∧ (preparation_run (fun _ => RasterOutcome.fail none "") "d" 1
        ⟨true, [("1.webp", [0])]⟩).rasterCalls = 0 := by
  have h := C2_cache_classification (fun _ => RasterOutcome.fail none "") "d"
    ⟨true, [("1.webp", [0])]⟩ 1
  have hcomp : inspect_cache ⟨true, [("1.webp", [0])]⟩ 1 = CacheStatus.Complete :=
    (h.2.1 rfl).1.mpr (by decide)
  exact ⟨hcomp, (h.2.2 hcomp).2⟩

/-- C10: the page_number delivered in each image event is the 1-based page
index cast usize→u16, i.e. the index modulo 2^16; for every index at or above
2^16 the delivered value therefore differs from the true index. -/
theorem C10_u16_truncation (dir : DirEntries) (ddPath name : String) (page : Nat)
    (ev : ImageLoaded) (h : send_webp_image dir ddPath name page = .ok ev) :
    ev.page_number = page % 2 ^ 16
    ∧ (2 ^ 16 ≤ page → ev.page_number ≠ page) := by
  have h1 := send_ok_page_number h
  have h2 : (2 ^ 16 : Nat) = 65536 := by norm_num
  constructor
  · rw [h1, h2]
  · intro hge
    rw [h1]
    have hlt : page % 65536 < 65536 := Nat.mod_lt _ (by omega)
    omega

/-- C10 witness: emitting page 70000 delivers page_number 4464 = 70000 mod
2^16, not 70000. -/
theorem C10_u16_truncation_witness :
    send_webp_image [("1.webp", [7])] "d" "1.webp" 70000
      = .ok ⟨70000 % 65536, "d/1.webp", [7]⟩
    ∧ (⟨70000 % 65536, "d/1.webp", [7]⟩ : ImageLoaded).page_number ≠ 70000 := by
  have hsend : send_webp_image [("1.webp", [7])] "d" "1.webp" 70000
      = .ok ⟨70000 % 65536, "d/1.webp", [7]⟩ := by
    rw [send_webp_image]
    rfl
  exact ⟨hsend, ((C10_u16_truncation _ _ _ _ _ hsend).2 (by norm_num))⟩

/-- C9: cache invalidation touches only entries with the fixed rendered-page
extension: in a Mismatched-cache run (whatever the rasterizer then does),
every entry whose extension is not the rendered one survives unchanged in the
final directory. -/
theorem C9_frame_non_webp (oracle : Nat → RasterOutcome) (ddPath : String)
    (pc : Nat) (fs : FS) (e : String × Bytes)
    (hex : fs.dataDirExists = true)
    (hmm : count_webp_files fs.dataDir ≠ pc)
    (hmem : e ∈ fs.dataDir)
    (hext : isRenderedExt e.1 = false) :
    e ∈ (preparation_run oracle ddPath pc fs).fs.dataDir := by
  rw [preparation_run_mismatch oracle ddPath pc fs hex hmm]
  exact process_aux_preserves oracle ddPath e hext (List.range pc) _
    (List.mem_filter.mpr ⟨hmem, by simp [hext]⟩)

/-- C9 witness: `a.txt` survives a mismatched run that then fails to
render. -/
theorem C9_frame_non_webp_witness :
    ("a.txt", [9]) ∈ (preparation_run (fun _ => RasterOutcome.fail none "x") "d" 2
      ⟨true, [("a.txt", [9]), ("1.webp", [0])]⟩).fs.dataDir := by
  exact C9_frame_non_webp (fun _ => RasterOutcome.fail none "x") "d" 2
    ⟨true, [("a.txt", [9]), ("1.webp", [0])]⟩ ("a.txt", [9])
    rfl (by decide) (by decide) (by decide)

/-- C3: when the cache holds N rendered files but the document has M ≠ N
pages and every render succeeds, the run succeeds, the final directory is
exactly the non-rendered survivors followed by the fresh pages 1..M (so all N
old rendered files are gone), the rendered entries are named exactly
`1.webp`..`M.webp`, and there are exactly M of them. -/
theorem C3_cache_invalidation (oracle : Nat → RasterOutcome) (bs : Nat → Bytes)
    (ddPath : String) (M : Nat) (fs : FS)
    (hex : fs.dataDirExists = true)
    (hNM : count_webp_files fs.dataDir ≠ M)
    (hok : ∀ i, i < M → oracle i = .ok (bs i)) :
    (preparation_run oracle ddPath M fs).error = none
    ∧ (preparation_run oracle ddPath M fs).fs.dataDir
        = remove_existing_webp_files fs.dataDir
          ++ (List.range M).map (fun i => (pageFileName (i + 1), bs i))
    ∧ ((preparation_run oracle ddPath M fs).fs.dataDir.filter
        (fun e => isRenderedExt e.1)).map Prod.fst
        = (List.range M).map (fun i => pageFileName (i + 1))
    ∧ count_webp_files (preparation_run oracle ddPath M fs).fs.dataDir = M := by
  have hbase := remove_existing_not_rendered fs.dataDir
  rw [preparation_run_mismatch oracle ddPath M fs hex hNM,
    process_pages_ok oracle bs ddPath M _ hok hbase]
  dsimp only
  refine ⟨rfl, rfl, ?_, ?_⟩
  · rw [List.filter_append,
      List.filter_eq_nil_iff.mpr (fun e he => by simp [hbase e he]),
      List.nil_append,
      List.filter_eq_self.mpr (fun e he => ?_), List.map_map]
    · rfl
    · rcases List.mem_map.mp he with ⟨i, hi, rfl⟩
      simp [isRenderedExt_pageFileName]
  · rw [count_webp_append_rendered _ hbase _ _, List.length_range]

/-- C3 witness: 2 cached rendered files, 1-page document; the run succeeds
and ends with exactly one rendered file. -/
theorem C3_cache_invalidation_witness :
    count_webp_files [("a.txt", [5]), ("1.webp", [0]), ("2.webp", [1])] ≠ 1
    ∧ (preparation_run (fun _ => RasterOutcome.ok [7]) "d" 1
        ⟨true, [("a.txt", [5]), ("1.webp", [0]), ("2.webp", [1])]⟩).error = none
    ∧ count_webp_files (preparation_run (fun _ => RasterOutcome.ok [7]) "d" 1
        ⟨true, [("a.txt", [5]), ("1.webp", [0]), ("2.webp", [1])]⟩).fs.dataDir = 1 := by
  have h := C3_cache_invalidation (fun _ => RasterOutcome.ok [7]) (fun _ => [7]) "d" 1
    ⟨true, [("a.txt", [5]), ("1.webp", [0]), ("2.webp", [1])]⟩
    rfl (by decide) (by decide)
  exact ⟨by decide, h.1, h.2.2.2⟩

/-- C4: after any successful run, a second run on the unchanged document and
untouched filesystem classifies the cache Complete, leaves the filesystem
identical, performs zero rasterizer invocations (for any behaviour of the
external tool, since it is never consulted), and succeeds. -/
theorem C4_idempotence (oracle oracle2 : Nat → RasterOutcome) (ddPath : String)
    (pc : Nat) (fs : FS)
    (h : (preparation_run oracle ddPath pc fs).error = none) :
    inspect_cache (preparation_run oracle ddPath pc fs).fs pc = .Complete
    ∧ (preparation_run oracle2 ddPath pc (preparation_run oracle ddPath pc fs).fs).fs
        = (preparation_run oracle ddPath pc fs).fs
    ∧ (preparation_run oracle2 ddPath pc
        (preparation_run oracle ddPath pc fs).fs).rasterCalls = 0
    ∧ (preparation_run oracle2 ddPath pc
        (preparation_run oracle ddPath pc fs).fs).error = none := by
  obtain ⟨hex, hc, hlook⟩ := run_success_state oracle ddPath pc fs h
  have hins : inspect_cache (preparation_run oracle ddPath pc fs).fs pc = .Complete := by
    rw [inspect_cache, if_pos hex, if_pos hc]
  have hemit := emit_aux_ok ddPath (preparation_run oracle ddPath pc fs).fs.dataDir
    ((List.range pc).map (fun i => i + 1))
    (by
      intro q hq
      rcases List.mem_map.mp hq with ⟨i, hi, rfl⟩
      exact hlook i (List.mem_range.mp hi))
  have hrun2 := preparation_run_complete oracle2 ddPath pc
    (preparation_run oracle ddPath pc fs).fs hex hc
  rw [hrun2]
  have heta : (⟨true, (preparation_run oracle ddPath pc fs).fs.dataDir⟩ : FS)
      = (preparation_run oracle ddPath pc fs).fs := by
    rw [← hex]
  refine ⟨hins, heta, rfl, ?_⟩
  dsimp only
  rw [emit_existing_images, hemit]

/-- C4 witness: a fresh 1-page run succeeds, and the follow-up run does zero
rasterizer invocations even with an always-failing tool. -/
theorem C4_idempotence_witness :
    (preparation_run (fun _ => RasterOutcome.ok [3]) "d" 1 ⟨false, []⟩).error = none
    ∧ (preparation_run (fun _ => RasterOutcome.fail none "never") "d" 1
        (preparation_run (fun _ => RasterOutcome.ok [3]) "d" 1 ⟨false, []⟩).fs).rasterCalls
      = 0 := by
  have h1 : (preparation_run (fun _ => RasterOutcome.ok [3]) "d" 1 ⟨false, []⟩).error
      = none := by decide
  exact ⟨h1, (C4_idempotence (fun _ => RasterOutcome.ok [3])
    (fun _ => RasterOutcome.fail none "never") "d" 1 ⟨false, []⟩ h1).2.2.1⟩

/-- C1 amended: for every run on a document with fewer than 2^16 = 65536
pages that completes without error, the delivered page_number sequence is
exactly 1, 2, ..., n — strictly increasing from 1 to n with no gaps — on the
cache-replay path and on both fresh-render paths. (The u16 cast makes the
bound necessary: see the counterexample at 65536 pages.) -/
theorem C1_ordering_amended (oracle : Nat → RasterOutcome) (ddPath : String)
    (pc : Nat) (fs : FS) (hpc : pc < 65536)
    (h : (preparation_run oracle ddPath pc fs).error = none) :
    (preparation_run oracle ddPath pc fs).events.map ImageLoaded.page_number
      = (List.range pc).map (fun i => i + 1) := by
  by_cases hex : fs.dataDirExists = true
  · by_cases hc : count_webp_files fs.dataDir = pc
    · rw [preparation_run_complete oracle ddPath pc fs hex hc] at h ⊢
      dsimp only at h ⊢
      rw [emit_existing_images] at h ⊢
      rw [emit_aux_events_pn ddPath fs.dataDir _ h, List.map_map]
      refine List.map_congr_left ?_
      intro i hi
      have hlt : i + 1 < 65536 := by
        have := List.mem_range.mp hi
        omega
      simp [Nat.mod_eq_of_lt hlt]
    · rw [preparation_run_mismatch oracle ddPath pc fs hex hc] at h ⊢
      dsimp only at h ⊢
      rw [process_pages] at h ⊢
      rw [process_aux_events_pn oracle ddPath _ _ h]
      refine List.map_congr_left ?_
      intro i hi
      have hlt : i + 1 < 65536 := by
        have := List.mem_range.mp hi
        omega
      simp [Nat.mod_eq_of_lt hlt]
  · have hex2 : fs.dataDirExists = false := by
      cases hb : fs.dataDirExists
      · rfl
      · exact absurd hb hex
    rw [preparation_run_absent oracle ddPath pc fs hex2] at h ⊢
    dsimp only at h ⊢
    rw [process_pages] at h ⊢
    rw [process_aux_events_pn oracle ddPath _ _ h]
    refine List.map_congr_left ?_
    intro i hi
    have hlt : i + 1 < 65536 := by
      have := List.mem_range.mp hi
      omega
    simp [Nat.mod_eq_of_lt hlt]

/-- C1 witness: a 2-page cache-replay run succeeds and delivers page_numbers
exactly `[1, 2]`. -/
theorem C1_ordering_amended_witness :
    (preparation_run (fun _ => RasterOutcome.fail none "") "d" 2
        ⟨true, [("1.webp", [0]), ("2.webp", [1])]⟩).error = none
    ∧ (preparation_run (fun _ => RasterOutcome.fail none "") "d" 2
        ⟨true, [("1.webp", [0]), ("2.webp", [1])]⟩).events.map ImageLoaded.page_number
      = [1, 2] := by
  have h : (preparation_run (fun _ => RasterOutcome.fail none "") "d" 2
      ⟨true, [("1.webp", [0]), ("2.webp", [1])]⟩).error = none := by decide
  have h2 := C1_ordering_amended (fun _ => RasterOutcome.fail none "") "d" 2
    ⟨true, [("1.webp", [0]), ("2.webp", [1])]⟩ (by omega) h
  refine ⟨h, ?_⟩
  rw [h2]
  decide

/-- C1 as stated is false: a 65536-page fresh render completes without error,
yet the delivered page_number sequence is not 1..n — the last event carries
page_number 65536 mod 2^16 = 0 because of the u16 cast. -/
theorem C1_ordering_counterexample :
    (preparation_run (fun _ => RasterOutcome.ok []) "d" 65536 ⟨false, []⟩).error = none
    ∧ ¬ ((preparation_run (fun _ => RasterOutcome.ok []) "d" 65536 ⟨false, []⟩).events.map
          ImageLoaded.page_number = (List.range 65536).map (fun i => i + 1)) := by
  have hshape := process_pages_ok (fun _ => RasterOutcome.ok []) (fun _ => []) "d" 65536 []
    (fun p _ => rfl) (fun e he => absurd he (List.not_mem_nil e))
  rw [preparation_run_absent (fun _ => RasterOutcome.ok []) "d" 65536 ⟨false, []⟩ rfl,
    hshape]
  dsimp only
  refine ⟨rfl, fun hcontra => ?_⟩
  have h1 : ((List.range 65536).map (fun p => mkEvent "d" (p + 1) [])).map
      ImageLoaded.page_number = (List.range 65536).map (fun i => (i + 1) % 65536) := by
    rw [List.map_map]
    rfl
  rw [h1] at hcontra
  have h2 := congrArg (fun l => l[65535]?) hcontra
  simp only [List.getElem?_map, List.getElem?_range (show 65535 < 65536 by omega),
    Option.map_some', Option.some.injEq] at h2
  omega

/-- C5: if during a fresh render the rasterizer fails on 1-based page k with
exit code c and stderr st, the run emits events exactly for pages 1..k-1,
invokes the rasterizer exactly k times (no page after k is attempted), leaves
exactly pages 1..k-1 on disk (no rollback), and ends with the external-tool
error carrying c and st. -/
theorem C5_failure_halts (oracle : Nat → RasterOutcome) (bs : Nat → Bytes)
    (ddPath : String) (pc k : Nat) (d0 : DirEntries) (c : Int) (st : String)
    (hk1 : 1 ≤ k) (hkpc : k ≤ pc)
    (hok : ∀ i, i < k - 1 → oracle i = .ok (bs i))
    (hfail : oracle (k - 1) = .fail (some c) st) :
    (preparation_run oracle ddPath pc ⟨false, d0⟩).error
        = some (.externalTool c st)
    ∧ (preparation_run oracle ddPath pc ⟨false, d0⟩).events
        = (List.range (k - 1)).map (fun i => mkEvent ddPath (i + 1) (bs i))
    ∧ (preparation_run oracle ddPath pc ⟨false, d0⟩).rasterCalls = k
    ∧ (preparation_run oracle ddPath pc ⟨false, d0⟩).fs.dataDir
        = (List.range (k - 1)).map (fun i => (pageFileName (i + 1), bs i)) := by
  have hsplit : List.range pc
      = List.range (k - 1) ++ ((k - 1) :: List.drop k (List.range pc)) := by
    have hlen : k - 1 < (List.range pc).length := by
      rw [List.length_range]
      omega
    have h1 : List.take (k - 1) (List.range pc) = List.range (k - 1) := by
      rw [List.take_range]
      congr 1
      omega
    have h2 : List.drop (k - 1) (List.range pc)
        = (List.range pc)[k - 1] :: List.drop (k - 1 + 1) (List.range pc) :=
      List.drop_eq_getElem_cons hlen
    have h3 : k - 1 + 1 = k := by omega
    calc List.range pc
        = List.take (k - 1) (List.range pc) ++ List.drop (k - 1) (List.range pc) :=
          (List.take_append_drop _ _).symm
      _ = List.range (k - 1) ++ ((k - 1) :: List.drop k (List.range pc)) := by
          rw [h1, h2, List.getElem_range, h3]
  have hhead : process_pages_aux oracle ddPath ((k - 1) :: List.drop k (List.range pc))
        ([] ++ (List.range (k - 1)).map (fun p => (pageFileName (p + 1), bs p)))
      = ⟨[] ++ (List.range (k - 1)).map (fun p => (pageFileName (p + 1), bs p)), [], 1,
         some (.externalTool c st)⟩ := by
    simp only [process_pages_aux, hfail, run_magick, Option.getD_some]
  rw [preparation_run_absent oracle ddPath pc ⟨false, d0⟩ rfl]
  dsimp only
  rw [process_pages, hsplit,
    process_aux_ok_prefix oracle bs ddPath (List.range (k - 1)) _ []
      (fun p hp => hok p (List.mem_range.mp hp))
      (fun p _ => rfl)
      (List.nodup_range _), hhead]
  dsimp only
  refine ⟨rfl, by simp, ?_, by simp⟩
  rw [List.length_range]
  omega

/-- C5 witness: with a tool that succeeds on page 1 and fails on page 2 of a
3-page document with exit code 9 and stderr "boom", the run ends with that
error after exactly 2 invocations. -/
theorem C5_failure_halts_witness :
    (preparation_run
        (fun i => if i = 0 then RasterOutcome.ok [1] else RasterOutcome.fail (some 9) "boom")
        "d" 3 ⟨false, []⟩).error = some (RunError.externalTool 9 "boom")
    ∧ (preparation_run
        (fun i => if i = 0 then RasterOutcome.ok [1] else RasterOutcome.fail (some 9) "boom")
        "d" 3 ⟨false, []⟩).rasterCalls = 2 := by
  have h := C5_failure_halts
    (fun i => if i = 0 then RasterOutcome.ok [1] else RasterOutcome.fail (some 9) "boom")
    (fun _ => [1]) "d" 3 2 [] 9 "boom" (by omega) (by omega) (by decide) (by decide)
  exact ⟨h.1, h.2.2.1⟩

end DocPipeline
